import Mathlib

/-!
Verification development for the AgriConnect ORDER FULFILLMENT ENGINE.

The repository ships the engine's README and its Next.js frontend; the
Django backend that implements carts, orders, payments and deliveries is
not part of the source tree.  The engine itself is therefore modelled
from the specification (each such definition carries a doc comment
starting with `Modelled from the spec:`), while the frontend behaviour
that is present in the tree (the product page quantity control, the
dashboard statistics computation) is translated directly from the
TypeScript source.
-/

namespace AgriConnect

/-- Modelled from the spec: the order state machine's states
(`PENDING -> CONFIRMED -> IN_TRANSIT -> DELIVERED -> COMPLETED`, plus
`CANCELLED`). -/
inductive OrderStatus
  | pending
  | confirmed
  | inTransit
  | delivered
  | completed
  | cancelled
deriving DecidableEq, Repr, Fintype

/-- Modelled from the spec: actor roles supplied by the identity service. -/
inductive Role
  | farmer
  | buyer
  | transporter
  | cooperative
  | admin
deriving DecidableEq, Repr, Fintype

/-- Modelled from the spec: payment states tracked by the payment ledger. -/
inductive PaymentState
  | initiated
  | held
  | released
  | refunded
  | failed
deriving DecidableEq, Repr, Fintype

/-- Modelled from the spec: the fixed taxonomy of delivery tracking statuses. -/
inductive DeliveryStatus
  | pickedUp
  | inTransit
  | delayed
  | delivered
deriving DecidableEq, Repr, Fintype

/-- Modelled from the spec: the recoverable error taxonomy of the engine. -/
inductive EngineErr
  | validationError
  | insufficientStock
  | invalidTransition
  | unauthorized
  | concurrentModification
  | illegalPaymentState
deriving DecidableEq, Repr, Fintype

/-- An authenticated actor, as supplied by the identity service. -/
structure Actor where
  id : Nat
  role : Role
deriving DecidableEq, Repr

/-! ### Availability maps

Product availability is kept as an association list from product id to
available quantity; this is the inventory view the engine decrements on
order creation and restores on cancellation. -/

/-- Look up the available quantity of a product. -/
def getAvail : List (Nat × Nat) → Nat → Option Nat
  | [], _ => none
  | (p, a) :: rest, pid => if p = pid then some a else getAvail rest pid

/-- Apply `f` to the available quantity of product `pid` (first entry). -/
def adjustAvail : List (Nat × Nat) → Nat → (Nat → Nat) → List (Nat × Nat)
  | [], _, _ => []
  | (p, a) :: rest, pid, f =>
    if p = pid then (p, f a) :: rest else (p, a) :: adjustAvail rest pid f

theorem getAvail_adjustAvail_self (l : List (Nat × Nat)) (pid : Nat) (f : Nat → Nat) :
    getAvail (adjustAvail l pid f) pid = (getAvail l pid).map f := by
  induction l with
  | nil => simp [getAvail, adjustAvail]
  | cons hd tl ih =>
    obtain ⟨p, a⟩ := hd
    by_cases hp : p = pid
    · simp [getAvail, adjustAvail, hp]
    · simp [getAvail, adjustAvail, hp, ih]

theorem getAvail_adjustAvail_other (l : List (Nat × Nat)) (pid pid' : Nat) (f : Nat → Nat)
    (h : pid' ≠ pid) : getAvail (adjustAvail l pid f) pid' = getAvail l pid' := by
  induction l with
  | nil => simp [getAvail, adjustAvail]
  | cons hd tl ih =>
    obtain ⟨p, a⟩ := hd
    by_cases hp : p = pid
    · subst hp
      simp [getAvail, adjustAvail, Ne.symm h]
    · by_cases hp' : p = pid'
      · simp [getAvail, adjustAvail, hp, hp', h]
      · simp [getAvail, adjustAvail, hp, hp', ih]

theorem adjustAvail_adjustAvail (l : List (Nat × Nat)) (pid : Nat) (f g : Nat → Nat) :
    adjustAvail (adjustAvail l pid f) pid g = adjustAvail l pid (fun x => g (f x)) := by
  induction l with
  | nil => simp [adjustAvail]
  | cons hd tl ih =>
    obtain ⟨p, a⟩ := hd
    by_cases hp : p = pid
    · simp [adjustAvail, hp]
    · simp [adjustAvail, hp, ih]

theorem adjustAvail_congr (l : List (Nat × Nat)) (pid : Nat) (f g : Nat → Nat) (a : Nat)
    (hfind : getAvail l pid = some a) (hfg : f a = g a) :
    adjustAvail l pid f = adjustAvail l pid g := by
  induction l with
  | nil => simp [getAvail] at hfind
  | cons hd tl ih =>
    obtain ⟨p, b⟩ := hd
    by_cases hp : p = pid
    · simp [getAvail, hp] at hfind
      subst hfind
      simp [adjustAvail, hp, hfg]
    · simp [getAvail, hp] at hfind
      simp [adjustAvail, hp, ih hfind]

theorem adjustAvail_id (l : List (Nat × Nat)) (pid : Nat) :
    adjustAvail l pid (fun x => x) = l := by
  induction l with
  | nil => simp [adjustAvail]
  | cons hd tl ih =>
    obtain ⟨p, a⟩ := hd
    by_cases hp : p = pid
    · simp [adjustAvail, hp]
    · simp [adjustAvail, hp, ih]

/-! ### Inventory Ledger (spec section 4.1) -/

/-- Modelled from the spec: a reservation token, a provisional inventory
decrement that must be explicitly committed or released. -/
structure Reservation where
  resId : Nat
  productId : Nat
  quantity : Nat
deriving DecidableEq, Repr

/-- Modelled from the spec: the inventory ledger holds per-product
availability plus the set of still-active reservation ids; the backend
model implementing it is absent from the source tree. -/
structure InventoryLedger where
  avail : List (Nat × Nat)
  active : List Nat
  nextRes : Nat
deriving DecidableEq, Repr

/-- Modelled from the spec: `reserve(product_id, quantity)` returns a
reservation or fails with `InsufficientStock`; unknown products are a
`ValidationError`. -/
def InventoryLedger.reserve (L : InventoryLedger) (pid qty : Nat) :
    Except EngineErr (InventoryLedger × Reservation) :=
  match getAvail L.avail pid with
  | none => .error .validationError
  | some a =>
    if qty ≤ a then
      .ok ({ avail := adjustAvail L.avail pid (fun x => x - qty),
             active := L.nextRes :: L.active, nextRes := L.nextRes + 1 },
           { resId := L.nextRes, productId := pid, quantity := qty })
    else .error .insufficientStock

/-- Modelled from the spec: `release(reservation)` restores the reserved
quantity; it is idempotent (a reservation no longer active is ignored). -/
def InventoryLedger.release (L : InventoryLedger) (r : Reservation) : InventoryLedger :=
  if r.resId ∈ L.active then
    { avail := adjustAvail L.avail r.productId (fun x => x + r.quantity),
      active := L.active.filter (fun i => i != r.resId),
      nextRes := L.nextRes }
  else L

/-- Modelled from the spec: `commit(reservation)` makes the decrement
permanent (the token can no longer be released). -/
def InventoryLedger.commit (L : InventoryLedger) (r : Reservation) : InventoryLedger :=
  { L with active := L.active.filter (fun i => i != r.resId) }

/-- Modelled from the spec: per-product serialization of concurrent
one-unit reservations — the spec requires racing `reserve` calls on one
product to be serialized, so `m` concurrent one-unit buyers are run as
`m` consecutive `reserve` calls.  Returns the final ledger, the number
of successful reservations and the list of errors raised. -/
def runUnitReserves (L : InventoryLedger) (pid : Nat) :
    Nat → InventoryLedger × Nat × List EngineErr
  | 0 => (L, 0, [])
  | Nat.succ m =>
    match L.reserve pid 1 with
    | .ok (L1, _) =>
      let r := runUnitReserves L1 pid m
      (r.1, r.2.1 + 1, r.2.2)
    | .error e =>
      let r := runUnitReserves L pid m
      (r.1, r.2.1, e :: r.2.2)

theorem reserve_ok_avail {L : InventoryLedger} {pid qty : Nat} {L' : InventoryLedger}
    {r : Reservation} (h : L.reserve pid qty = .ok (L', r)) :
    ∃ a, getAvail L.avail pid = some a ∧ qty ≤ a ∧
      L'.avail = adjustAvail L.avail pid (fun x => x - qty) ∧
      r.productId = pid ∧ r.quantity = qty ∧ r.resId ∈ L'.active := by
  unfold InventoryLedger.reserve at h
  split at h
  · exact absurd h (by simp)
  · rename_i a hg
    split at h
    · rename_i hq
      cases h
      exact ⟨a, hg, hq, rfl, rfl, rfl, by simp⟩
    · exact absurd h (by simp)

/-- Round trip at the ledger: a successful reservation followed by its
release restores every product's availability. -/
theorem release_reserve_roundtrip {L : InventoryLedger} {pid qty : Nat}
    {L' : InventoryLedger} {r : Reservation} (h : L.reserve pid qty = .ok (L', r)) :
    ∀ pid', getAvail ((L'.release r).avail) pid' = getAvail L.avail pid' := by
  obtain ⟨a, hg, hq, hav, hpid, hqty, hres⟩ := reserve_ok_avail h
  intro pid'
  unfold InventoryLedger.release
  rw [if_pos hres, hav, hpid, hqty]
  rw [adjustAvail_adjustAvail]
  have hcongr : adjustAvail L.avail pid (fun x => x - qty + qty) =
      adjustAvail L.avail pid (fun x => x) :=
    adjustAvail_congr _ _ _ _ a hg (Nat.sub_add_cancel hq)
  rw [hcongr, adjustAvail_id]

/-- Idempotence of release: releasing a reservation a second time is the
identity on the ledger. -/
theorem release_idem (L : InventoryLedger) (r : Reservation) :
    (L.release r).release r = L.release r := by
  unfold InventoryLedger.release
  by_cases hm : r.resId ∈ L.active
  · rw [if_pos hm]
    rw [if_neg (by simp [List.mem_filter])]
  · rw [if_neg hm, if_neg hm]

theorem runUnitReserves_spec (pid : Nat) :
    ∀ (m : Nat) (L : InventoryLedger) (n : Nat), getAvail L.avail pid = some n →
      (runUnitReserves L pid m).2.1 = min m n ∧
      (runUnitReserves L pid m).2.2 = List.replicate (m - n) EngineErr.insufficientStock ∧
      getAvail (runUnitReserves L pid m).1.avail pid = some (n - m) := by
  intro m
  induction m with
  | zero => intro L n h; simpa [runUnitReserves] using h
  | succ m ih =>
    intro L n h
    cases n with
    | zero =>
      have hres : L.reserve pid 1 = .error .insufficientStock := by
        unfold InventoryLedger.reserve
        rw [h]
        simp
      obtain ⟨h1, h2, h3⟩ := ih L 0 h
      unfold runUnitReserves
      rw [hres]
      refine ⟨by simp [h1], ?_, by simpa using h3⟩
      simp [h2, List.replicate_succ]
    | succ k =>
      have hres : L.reserve pid 1 =
          .ok ({ avail := adjustAvail L.avail pid (fun x => x - 1),
                 active := L.nextRes :: L.active, nextRes := L.nextRes + 1 },
               { resId := L.nextRes, productId := pid, quantity := 1 }) := by
        unfold InventoryLedger.reserve
        rw [h]
        simp
      have hn : getAvail (adjustAvail L.avail pid (fun x => x - 1)) pid = some k := by
        rw [getAvail_adjustAvail_self, h]
        simp
      obtain ⟨h1, h2, h3⟩ :=
        ih { avail := adjustAvail L.avail pid (fun x => x - 1),
             active := L.nextRes :: L.active, nextRes := L.nextRes + 1 } k hn
      unfold runUnitReserves
      rw [hres]
      refine ⟨?_, ?_, ?_⟩
      · simp [Nat.succ_min_succ, h1]
      · simpa [Nat.succ_sub_succ] using h2
      · simpa [Nat.succ_sub_succ] using h3

/-! ### Delivery Tracker (spec section 4.5) -/

/-- Modelled from the spec: one timestamped tracking update; the model
keeps location, status and note (wall-clock time is abstracted away). -/
structure TrackingUpdate where
  location : String
  status : DeliveryStatus
  note : String
deriving DecidableEq, Repr

/-- Modelled from the spec: a delivery record, one-to-one with an order,
created only once a transporter is assigned. -/
structure DeliveryRecord where
  orderId : Nat
  transporterId : Nat
  pickupAddress : String
  deliveryAddress : String
  trackingUpdates : List TrackingUpdate
  completedAt : Option Nat
deriving DecidableEq, Repr

/-- Modelled from the spec: `assign(order_id, transporter_id, pickup_address)`
creates a fresh delivery record with no tracking updates. -/
def assignDelivery (oid tid : Nat) (pickup delivery : String) : DeliveryRecord :=
  { orderId := oid, transporterId := tid, pickupAddress := pickup,
    deliveryAddress := delivery, trackingUpdates := [], completedAt := none }

/-- Modelled from the spec: `add_tracking_update` appends one update;
the status argument is typed by the fixed taxonomy. -/
def addTrackingUpdate (d : DeliveryRecord) (location : String) (status : DeliveryStatus)
    (note : String) : DeliveryRecord :=
  { d with trackingUpdates :=
      d.trackingUpdates ++ [{ location := location, status := status, note := note }] }

/-- Modelled from the spec: `complete(delivery_id)` requires the most
recent update's status to be `delivered` and sets `completed_at` once. -/
def completeDelivery (d : DeliveryRecord) (t : Nat) : Except EngineErr DeliveryRecord :=
  match d.completedAt with
  | some _ => .error .invalidTransition
  | none =>
    match d.trackingUpdates.getLast? with
    | some u =>
      if u.status = .delivered then .ok { d with completedAt := some t }
      else .error .invalidTransition
    | none => .error .invalidTransition

/-- Delivery records obtainable through the tracker's public contract. -/
inductive TrackerReachable : DeliveryRecord → Prop
  | assigned (oid tid : Nat) (pickup delivery : String) :
      TrackerReachable (assignDelivery oid tid pickup delivery)
  | update (d : DeliveryRecord) (location : String) (status : DeliveryStatus) (note : String) :
      TrackerReachable d → TrackerReachable (addTrackingUpdate d location status note)
  | finish (d d' : DeliveryRecord) (t : Nat) :
      TrackerReachable d → completeDelivery d t = .ok d' → TrackerReachable d'

theorem mem_of_getLast?_eq {α : Type _} {l : List α} {x : α} (h : l.getLast? = some x) :
    x ∈ l := by
  have hx : x ∈ l.getLast? := by simp [Option.mem_def, h]
  obtain ⟨hne, hxl⟩ := List.mem_getLast?_eq_getLast hx
  exact hxl ▸ List.getLast_mem hne

theorem completeDelivery_ok {d : DeliveryRecord} {t : Nat} {d' : DeliveryRecord}
    (h : completeDelivery d t = .ok d') :
    d.completedAt = none ∧
      (∃ u, d.trackingUpdates.getLast? = some u ∧ u.status = .delivered) ∧
      d' = { d with completedAt := some t } := by
  unfold completeDelivery at h
  split at h
  · exact absurd h (by simp)
  · rename_i hnone
    split at h
    · rename_i u hlast
      split at h
      · rename_i hdel
        cases h
        exact ⟨hnone, ⟨u, hlast, hdel⟩, rfl⟩
      · exact absurd h (by simp)
    · exact absurd h (by simp)

/-- Once `completed_at` is set, any further completion attempt fails, so
the field is written at most once. -/
theorem tracker_completed_once (d : DeliveryRecord) (t0 t : Nat)
    (h : d.completedAt = some t0) : completeDelivery d t = .error .invalidTransition := by
  unfold completeDelivery
  rw [h]

/-- Reachable delivery records that are completed contain at least one
tracking update with the terminal delivery status. -/
theorem tracker_completed_has_delivered {d : DeliveryRecord} (hr : TrackerReachable d) :
    ∀ t, d.completedAt = some t →
      ∃ u ∈ d.trackingUpdates, u.status = DeliveryStatus.delivered := by
  induction hr with
  | assigned oid tid pickup delivery => intro t ht; simp [assignDelivery] at ht
  | update d location status note _ ih =>
    intro t ht
    obtain ⟨u, hu, hst⟩ := ih t ht
    exact ⟨u, by simp [addTrackingUpdate, hu], hst⟩
  | finish d d' t0 _ hok ih =>
    intro t ht
    obtain ⟨_, ⟨u, hlast, hdel⟩, hval⟩ := completeDelivery_ok hok
    subst hval
    exact ⟨u, mem_of_getLast?_eq hlast, hdel⟩

/-! ### Engine data model (spec section 3) -/

/-- Catalog view of a product: identity, owning farmer and live unit
price (availability is kept in the inventory map). -/
structure Product where
  id : Nat
  farmerId : Nat
  unitPrice : Nat
deriving DecidableEq, Repr

/-- Modelled from the spec: one cart line with its price snapshot. -/
structure CartLine where
  productId : Nat
  quantity : Nat
  unitPrice : Nat
deriving DecidableEq, Repr

/-- Modelled from the spec: immutable snapshot of a cart line at commit time. -/
structure OrderItem where
  productId : Nat
  quantity : Nat
  unitPrice : Nat
deriving DecidableEq, Repr

/-- Modelled from the spec: the root order aggregate.  The history keeps
(status, actor id) pairs; wall-clock timestamps are abstracted by the
engine's logical clock. -/
structure Order where
  id : Nat
  buyerId : Nat
  farmerId : Nat
  items : List OrderItem
  subtotal : Nat
  platformFee : Nat
  total : Nat
  status : OrderStatus
  deliveryAddress : String
  history : List (OrderStatus × Nat)
  rating : Option Nat
deriving DecidableEq, Repr

/-- Modelled from the spec: one payment per order, keyed by its order id. -/
structure Payment where
  orderId : Nat
  amount : Nat
  state : PaymentState
deriving DecidableEq, Repr

/-- Modelled from the spec: the whole engine state behind the
orchestrator: injected fee rate (an exact fraction, default 3/100),
catalog, inventory, per-buyer carts, orders, payments and deliveries.
Money amounts are integer minor units. -/
structure EngineState where
  feeNum : Nat
  feeDen : Nat
  catalog : List Product
  inventory : List (Nat × Nat)
  carts : List (Nat × List CartLine)
  orders : List Order
  payments : List Payment
  deliveries : List DeliveryRecord
  nextOrderId : Nat
  clock : Nat
deriving DecidableEq, Repr

/-- Modelled from the spec: `platform_fee = round_half_up(subtotal * fee_rate)`
with the rate the exact fraction num/den; round-half-up of the nonnegative
rational p/q is floor((2p + q)/(2q)), computed in integer arithmetic. -/
def roundHalfUpFee (subtotal num den : Nat) : Nat :=
  (2 * (subtotal * num) + den) / (2 * den)

/-- Default platform fee rate numerator (rate 3/100 = 3 percent). -/
def defaultFeeNum : Nat := 3

/-- Default platform fee rate denominator. -/
def defaultFeeDen : Nat := 100

/-! ### Keyed lookup and update helpers -/

/-- First element of the list whose key equals `k`. -/
def findBy {α : Type} (key : α → Nat) : List α → Nat → Option α
  | [], _ => none
  | a :: rest, k => if key a = k then some a else findBy key rest k

/-- Apply `f` to every element whose key equals `k`. -/
def updateBy {α : Type} (key : α → Nat) : List α → Nat → (α → α) → List α
  | [], _, _ => []
  | a :: rest, k, f =>
    if key a = k then f a :: updateBy key rest k f else a :: updateBy key rest k f

theorem findBy_updateBy {α : Type} (key : α → Nat) (f : α → α)
    (hf : ∀ a, key (f a) = key a) (l : List α) (k k' : Nat) :
    findBy key (updateBy key l k f) k' =
      if k' = k then (findBy key l k').map f else findBy key l k' := by
  induction l with
  | nil => by_cases h : k' = k <;> simp [findBy, updateBy, h]
  | cons a rest ih =>
    by_cases ha : key a = k
    · by_cases hk : k' = k
      · subst hk
        simp [findBy, updateBy, ha, hf, ih]
      · have hkk : k ≠ k' := fun hh => hk hh.symm
        simp [findBy, updateBy, ha, hf, ih, hk, hkk]
    · by_cases ha' : key a = k'
      · by_cases hk : k' = k
        · exact absurd (hk ▸ ha') ha
        · simp [findBy, updateBy, ha, ha', hk]
      · simp [findBy, updateBy, ha, ha', ih]

theorem findBy_append_left {α : Type} (key : α → Nat) {l₁ : List α} (l₂ : List α) {k : Nat}
    {a : α} (h : findBy key l₁ k = some a) : findBy key (l₁ ++ l₂) k = some a := by
  induction l₁ with
  | nil => simp [findBy] at h
  | cons b rest ih =>
    by_cases hb : key b = k
    · simp [findBy, hb] at h ⊢; exact h
    · simp [findBy, hb] at h ⊢; exact ih h

theorem findBy_append_none {α : Type} (key : α → Nat) {l₁ : List α} (l₂ : List α) {k : Nat}
    (h : findBy key l₁ k = none) : findBy key (l₁ ++ l₂) k = findBy key l₂ k := by
  induction l₁ with
  | nil => simp [findBy]
  | cons b rest ih =>
    by_cases hb : key b = k
    · simp [findBy, hb] at h
    · simp [findBy, hb] at h ⊢; exact ih h

/-- Look up an order by id. -/
def findOrder (l : List Order) (oid : Nat) : Option Order := findBy (fun o => o.id) l oid

/-- Update an order in place by id. -/
def updateOrder (l : List Order) (oid : Nat) (f : Order → Order) : List Order :=
  updateBy (fun o => o.id) l oid f

/-- Look up the payment linked to an order. -/
def findPayment (l : List Payment) (oid : Nat) : Option Payment :=
  findBy (fun p => p.orderId) l oid

/-- Update the payment linked to an order. -/
def updatePayment (l : List Payment) (oid : Nat) (f : Payment → Payment) : List Payment :=
  updateBy (fun p => p.orderId) l oid f

/-- Look up the delivery record linked to an order. -/
def findDelivery (l : List DeliveryRecord) (oid : Nat) : Option DeliveryRecord :=
  findBy (fun d => d.orderId) l oid

/-- Update the delivery record linked to an order. -/
def updateDelivery (l : List DeliveryRecord) (oid : Nat) (f : DeliveryRecord → DeliveryRecord) :
    List DeliveryRecord :=
  updateBy (fun d => d.orderId) l oid f

/-- Look up a product in the catalog. -/
def findProduct (l : List Product) (pid : Nat) : Option Product := findBy (fun p => p.id) l pid

/-- The lines of the buyer's cart (empty when the cart was never created). -/
def cartLinesOf (s : EngineState) (b : Nat) : List CartLine :=
  match findBy (fun c => c.1) s.carts b with
  | some c => c.2
  | none => []

/-- Replace the buyer's cart content, creating the cart lazily. -/
def setCart (carts : List (Nat × List CartLine)) (b : Nat) (lines : List CartLine) :
    List (Nat × List CartLine) :=
  match findBy (fun c => c.1) carts b with
  | some _ => updateBy (fun c => c.1) carts b (fun c => (c.1, lines))
  | none => carts ++ [(b, lines)]

/-! ### Order creation helpers -/

/-- Snapshot a cart line into an order item. -/
def lineToItem (l : CartLine) : OrderItem :=
  { productId := l.productId, quantity := l.quantity, unitPrice := l.unitPrice }

/-- Modelled from the spec: reserve+commit the quantities of all items
against the inventory, failing (none) as soon as one product is missing
or short on stock. -/
def reserveItems (inv : List (Nat × Nat)) : List OrderItem → Option (List (Nat × Nat))
  | [] => some inv
  | it :: rest =>
    match getAvail inv it.productId with
    | none => none
    | some a =>
      if it.quantity ≤ a then
        reserveItems (adjustAvail inv it.productId (fun x => x - it.quantity)) rest
      else none

/-- Modelled from the spec: restore the quantities of all items to the
inventory (used by cancellation). -/
def restoreItems (inv : List (Nat × Nat)) : List OrderItem → List (Nat × Nat)
  | [] => inv
  | it :: rest => adjustAvail (restoreItems inv rest) it.productId (fun x => x + it.quantity)

theorem restoreItems_reserveItems :
    ∀ (items : List OrderItem) (inv inv' : List (Nat × Nat)),
      reserveItems inv items = some inv' → restoreItems inv' items = inv := by
  intro items
  induction items with
  | nil => intro inv inv' h; simp [reserveItems] at h; simp [restoreItems, h]
  | cons it rest ih =>
    intro inv inv' h
    unfold reserveItems at h
    split at h
    · exact absurd h (by simp)
    · rename_i a hg
      split at h
      · rename_i hq
        have hres := ih _ _ h
        unfold restoreItems
        rw [hres, adjustAvail_adjustAvail,
          adjustAvail_congr inv it.productId (fun x => x - it.quantity + it.quantity)
            (fun x => x) a hg (Nat.sub_add_cancel hq),
          adjustAvail_id]
      · exact absurd h (by simp)

/-- The owning farmer of a product, looked up in the catalog. -/
def productFarmer (cat : List Product) (pid : Nat) : Option Nat :=
  (findProduct cat pid).map (fun p => p.farmerId)

/-- Modelled from the spec: the distinct farmers of the cart, in first
appearance order (one order is created per farmer group). -/
def farmerGroups (cat : List Product) (lines : List CartLine) : List Nat :=
  lines.foldl (fun acc l =>
    match productFarmer cat l.productId with
    | some f => if f ∈ acc then acc else acc ++ [f]
    | none => acc) []

/-- The cart lines whose product belongs to farmer `f`. -/
def linesOfFarmer (cat : List Product) (lines : List CartLine) (f : Nat) : List CartLine :=
  lines.filter (fun l => productFarmer cat l.productId == some f)

/-- Sum of quantity times unit price snapshot over the lines. -/
def subtotalOf (lines : List CartLine) : Nat :=
  (lines.map (fun l => l.quantity * l.unitPrice)).sum

/-- Modelled from the spec: at checkout a line is valid when its product
is still in the catalog at the snapshotted price. -/
def priceOk (cat : List Product) (l : CartLine) : Bool :=
  match findProduct cat l.productId with
  | some p => p.unitPrice == l.unitPrice
  | none => false

/-- Modelled from the spec: build one pending order for one farmer group,
computing fee and total from the group subtotal. -/
def mkOrder (oid buyer farmer : Nat) (addr : String) (glines : List CartLine)
    (num den : Nat) : Order :=
  let sub := subtotalOf glines
  let fee := roundHalfUpFee sub num den
  { id := oid, buyerId := buyer, farmerId := farmer, items := glines.map lineToItem,
    subtotal := sub, platformFee := fee, total := sub + fee, status := .pending,
    deliveryAddress := addr, history := [(.pending, buyer)], rating := none }

/-- One order per farmer group, with consecutive fresh ids. -/
def mkOrders (buyer : Nat) (addr : String) (cat : List Product) (lines : List CartLine)
    (num den : Nat) : Nat → List Nat → List Order
  | _, [] => []
  | oid, f :: fs =>
    mkOrder oid buyer f addr (linesOfFarmer cat lines f) num den ::
      mkOrders buyer addr cat lines num den (oid + 1) fs

/-! ### Orchestrator operations (spec sections 4.2, 4.3, 4.6)

Each operation returns the next engine state or an error; the
transactional wrapper `runOp` keeps the pre-transition state whenever an
operation fails, so a failed transition never partially applies. -/

/-- Modelled from the spec: cart `add` merges into an existing line by
summing quantities, else inserts a new line with the current catalog
price as snapshot. -/
def addToCart (s : EngineState) (b pid qty : Nat) : Except EngineErr EngineState :=
  if qty = 0 then .error .validationError
  else
    match findProduct s.catalog pid with
    | none => .error .validationError
    | some p =>
      let lines := cartLinesOf s b
      let lines' :=
        if lines.any (fun l => l.productId == pid) then
          lines.map (fun l =>
            if l.productId = pid then { l with quantity := l.quantity + qty } else l)
        else lines ++ [{ productId := pid, quantity := qty, unitPrice := p.unitPrice }]
      .ok { s with carts := setCart s.carts b lines' }

/-- Modelled from the spec: cart `update`; quantity zero removes the line. -/
def updateCartLine (s : EngineState) (b pid qty : Nat) : Except EngineErr EngineState :=
  let lines := cartLinesOf s b
  if qty = 0 then
    .ok { s with carts := setCart s.carts b (lines.filter (fun l => l.productId != pid)) }
  else
    .ok { s with carts := setCart s.carts b (lines.map (fun l =>
      if l.productId = pid then { l with quantity := qty } else l)) }

/-- Modelled from the spec: cart `remove`. -/
def removeFromCart (s : EngineState) (b pid : Nat) : Except EngineErr EngineState :=
  .ok { s with carts := setCart s.carts b ((cartLinesOf s b).filter (fun l => l.productId != pid)) }

/-- Modelled from the spec: cart `clear`. -/
def clearCartOp (s : EngineState) (b : Nat) : Except EngineErr EngineState :=
  .ok { s with carts := setCart s.carts b [] }

/-- Modelled from the spec: `checkout(buyer_id, delivery_address)` —
validates the cart's prices against the live catalog, atomically
reserves+commits inventory, creates one pending order and one initiated
payment per farmer group, and clears the cart. -/
def checkout (s : EngineState) (b : Nat) (addr : String) : Except EngineErr EngineState :=
  let lines := cartLinesOf s b
  if lines.isEmpty then .error .validationError
  else if lines.all (priceOk s.catalog) then
    match reserveItems s.inventory (lines.map lineToItem) with
    | none => .error .insufficientStock
    | some inv' =>
      let fs := farmerGroups s.catalog lines
      let newOrders := mkOrders b addr s.catalog lines s.feeNum s.feeDen s.nextOrderId fs
      .ok { s with
        inventory := inv',
        orders := s.orders ++ newOrders,
        payments := s.payments ++ newOrders.map (fun o =>
          { orderId := o.id, amount := o.total, state := .initiated }),
        carts := setCart s.carts b [],
        nextOrderId := s.nextOrderId + fs.length,
        clock := s.clock + 1 }
  else .error .validationError

/-- Move an order to status `st`, appending the acting actor to the
append-only status history. -/
def setOrder (st : OrderStatus) (aid : Nat) (x : Order) : Order :=
  { x with status := st, history := x.history ++ [(st, aid)] }

/-- Attach the buyer's rating to an order. -/
def setRating (r : Nat) (x : Order) : Order :=
  { x with rating := some r }

/-- Modelled from the spec: the owning farmer confirms a pending order. -/
def confirmOrder (s : EngineState) (oid : Nat) (actor : Actor) : Except EngineErr EngineState :=
  match findOrder s.orders oid with
  | none => .error .invalidTransition
  | some o =>
    if actor.role = Role.farmer ∧ actor.id = o.farmerId then
      if o.status = OrderStatus.pending then
        .ok { s with
          orders := updateOrder s.orders oid (setOrder .confirmed actor.id),
          clock := s.clock + 1 }
      else .error .invalidTransition
    else .error .invalidTransition

/-- Modelled from the spec: farmer or admin assigns a transporter to a
confirmed order with no existing delivery record; the order status is
unchanged. -/
def assignTransporter (s : EngineState) (oid tid : Nat) (actor : Actor) (pickup : String) :
    Except EngineErr EngineState :=
  match findOrder s.orders oid with
  | none => .error .invalidTransition
  | some o =>
    if (actor.role = Role.farmer ∧ actor.id = o.farmerId) ∨ actor.role = Role.admin then
      if o.status = OrderStatus.confirmed then
        match findDelivery s.deliveries oid with
        | some _ => .error .invalidTransition
        | none =>
          .ok { s with
            deliveries := s.deliveries ++ [assignDelivery oid tid pickup o.deliveryAddress],
            clock := s.clock + 1 }
      else .error .invalidTransition
    else .error .invalidTransition

/-- Modelled from the spec: the assigned transporter advances the
delivery, CONFIRMED to IN_TRANSIT or IN_TRANSIT to DELIVERED, appending a
tracking update; reaching DELIVERED sets the delivery completion time. -/
def advanceDelivery (s : EngineState) (oid : Nat) (target : OrderStatus) (location : String)
    (actor : Actor) : Except EngineErr EngineState :=
  match findOrder s.orders oid with
  | none => .error .invalidTransition
  | some o =>
    match findDelivery s.deliveries oid with
    | none => .error .invalidTransition
    | some d =>
      if actor.role = Role.transporter ∧ actor.id = d.transporterId then
        if target = OrderStatus.inTransit ∧ o.status = OrderStatus.confirmed then
          .ok { s with
            orders := updateOrder s.orders oid (setOrder .inTransit actor.id),
            deliveries := updateDelivery s.deliveries oid (fun dd =>
              addTrackingUpdate dd location DeliveryStatus.inTransit ""),
            clock := s.clock + 1 }
        else if target = OrderStatus.delivered ∧ o.status = OrderStatus.inTransit then
          .ok { s with
            orders := updateOrder s.orders oid (setOrder .delivered actor.id),
            deliveries := updateDelivery s.deliveries oid (fun dd =>
              { addTrackingUpdate dd location DeliveryStatus.delivered "" with
                  completedAt := some s.clock }),
            clock := s.clock + 1 }
        else .error .invalidTransition
      else .error .invalidTransition

/-- Set the escrow state of a payment. -/
def setPaymentState (st : PaymentState) (q : Payment) : Payment :=
  { q with state := st }

/-- Modelled from the spec: `release(payment_id)` is only legal when the
linked order is COMPLETED and the payment is held. -/
def releasePayment (s : EngineState) (pid : Nat) : Except EngineErr EngineState :=
  match findPayment s.payments pid with
  | none => .error .illegalPaymentState
  | some p =>
    match findOrder s.orders p.orderId with
    | none => .error .illegalPaymentState
    | some o =>
      if o.status = OrderStatus.completed ∧ p.state = PaymentState.held then
        .ok { s with payments := updatePayment s.payments pid (setPaymentState .released) }
      else .error .illegalPaymentState

/-- Modelled from the spec: `refund(payment_id)` is only legal when the
linked order is CANCELLED and the payment has not reached a terminal
state. -/
def refundPayment (s : EngineState) (pid : Nat) : Except EngineErr EngineState :=
  match findPayment s.payments pid with
  | none => .error .illegalPaymentState
  | some p =>
    match findOrder s.orders p.orderId with
    | none => .error .illegalPaymentState
    | some o =>
      if o.status = OrderStatus.cancelled ∧
          (p.state = PaymentState.initiated ∨ p.state = PaymentState.held) then
        .ok { s with payments := updatePayment s.payments pid (setPaymentState .refunded) }
      else .error .illegalPaymentState

/-- Modelled from the spec: the buyer completes a delivered order, which
atomically releases the escrowed payment. -/
def completeOrder (s : EngineState) (oid : Nat) (actor : Actor) : Except EngineErr EngineState :=
  match findOrder s.orders oid with
  | none => .error .invalidTransition
  | some o =>
    if actor.role = Role.buyer ∧ actor.id = o.buyerId then
      if o.status = OrderStatus.delivered then
        releasePayment
          { s with
            orders := updateOrder s.orders oid (setOrder .completed actor.id),
            clock := s.clock + 1 } oid
      else .error .invalidTransition
    else .error .invalidTransition

/-- Refund the payment when it is still open (initiated or held); a
payment that never captured funds is left as it is. -/
def refundIfOpen (p : Payment) : Payment :=
  if p.state = PaymentState.initiated ∨ p.state = PaymentState.held then
    { p with state := .refunded }
  else p

/-- Modelled from the spec: buyer or farmer cancels an order not yet in
transit, restoring the reserved inventory and refunding the payment. -/
def cancelOrder (s : EngineState) (oid : Nat) (actor : Actor) : Except EngineErr EngineState :=
  match findOrder s.orders oid with
  | none => .error .invalidTransition
  | some o =>
    if (actor.role = Role.buyer ∧ actor.id = o.buyerId) ∨
        (actor.role = Role.farmer ∧ actor.id = o.farmerId) then
      if o.status = OrderStatus.pending ∨ o.status = OrderStatus.confirmed then
        .ok { s with
          orders := updateOrder s.orders oid (setOrder .cancelled actor.id),
          inventory := restoreItems s.inventory o.items,
          payments := updatePayment s.payments oid refundIfOpen,
          clock := s.clock + 1 }
      else .error .invalidTransition
    else .error .invalidTransition

/-- Modelled from the spec: the buyer rates a completed order once,
rating in [1,5]. -/
def rateOrder (s : EngineState) (oid : Nat) (actor : Actor) (rating : Nat) :
    Except EngineErr EngineState :=
  match findOrder s.orders oid with
  | none => .error .invalidTransition
  | some o =>
    if actor.role = Role.buyer ∧ actor.id = o.buyerId then
      if o.status = OrderStatus.completed then
        if 1 ≤ rating ∧ rating ≤ 5 then
          match o.rating with
          | some _ => .error .validationError
          | none =>
            .ok { s with orders := updateOrder s.orders oid (setRating rating) }
        else .error .validationError
      else .error .invalidTransition
    else .error .invalidTransition

/-- Modelled from the spec: the gateway webhook confirms capture; a
replay on an already-held payment is a no-op, not an error. -/
def markHeld (s : EngineState) (pid : Nat) : Except EngineErr EngineState :=
  match findPayment s.payments pid with
  | none => .error .validationError
  | some p =>
    match p.state with
    | .initiated =>
      .ok { s with payments := updatePayment s.payments pid (setPaymentState .held) }
    | .held => .ok s
    | _ => .error .illegalPaymentState

/-- Modelled from the spec: the gateway webhook reports a failed capture. -/
def markFailed (s : EngineState) (pid : Nat) : Except EngineErr EngineState :=
  match findPayment s.payments pid with
  | none => .error .validationError
  | some p =>
    match p.state with
    | .initiated =>
      .ok { s with payments := updatePayment s.payments pid (setPaymentState .failed) }
    | _ => .error .illegalPaymentState

/-- The external calls the orchestrator accepts. -/
inductive Op
  | addToCart (b pid qty : Nat)
  | updateCartLine (b pid qty : Nat)
  | removeFromCart (b pid : Nat)
  | clearCart (b : Nat)
  | checkout (b : Nat) (addr : String)
  | confirm (oid : Nat) (actor : Actor)
  | assign (oid tid : Nat) (actor : Actor) (pickup : String)
  | advance (oid : Nat) (target : OrderStatus) (location : String) (actor : Actor)
  | complete (oid : Nat) (actor : Actor)
  | cancel (oid : Nat) (actor : Actor)
  | rate (oid : Nat) (actor : Actor) (rating : Nat)
  | paymentHeld (pid : Nat)
  | paymentFailed (pid : Nat)
  | paymentRelease (pid : Nat)
  | paymentRefund (pid : Nat)
deriving DecidableEq, Repr

/-- Dispatch one external call. -/
def applyOp (s : EngineState) : Op → Except EngineErr EngineState
  | .addToCart b pid qty => addToCart s b pid qty
  | .updateCartLine b pid qty => updateCartLine s b pid qty
  | .removeFromCart b pid => removeFromCart s b pid
  | .clearCart b => clearCartOp s b
  | .checkout b addr => checkout s b addr
  | .confirm oid actor => confirmOrder s oid actor
  | .assign oid tid actor pickup => assignTransporter s oid tid actor pickup
  | .advance oid target location actor => advanceDelivery s oid target location actor
  | .complete oid actor => completeOrder s oid actor
  | .cancel oid actor => cancelOrder s oid actor
  | .rate oid actor rating => rateOrder s oid actor rating
  | .paymentHeld pid => markHeld s pid
  | .paymentFailed pid => markFailed s pid
  | .paymentRelease pid => releasePayment s pid
  | .paymentRefund pid => refundPayment s pid

/-- The transactional boundary: a failed operation leaves the whole
engine state exactly as it was. -/
def runOp (s : EngineState) (op : Op) : EngineState :=
  match applyOp s op with
  | .ok s' => s'
  | .error _ => s

/-- Run a sequence of external calls. -/
def runOps (s : EngineState) : List Op → EngineState
  | [] => s
  | op :: ops => runOps (runOp s op) ops

/-- The status of an order in the engine state. -/
def statusOf (s : EngineState) (oid : Nat) : Option OrderStatus :=
  (findOrder s.orders oid).map (fun o => o.status)

/-- The single-step edges of the order state machine (spec section 4.3). -/
def allowedStep : OrderStatus → OrderStatus → Bool
  | .pending, .confirmed => true
  | .confirmed, .inTransit => true
  | .inTransit, .delivered => true
  | .delivered, .completed => true
  | .pending, .cancelled => true
  | .confirmed, .cancelled => true
  | _, _ => false

/-- Terminal statuses admit no further transition. -/
def isTerminal : OrderStatus → Bool
  | .completed => true
  | .cancelled => true
  | _ => false

/-- Reflexive-transitive closure of `allowedStep`. -/
def chainLe : OrderStatus → OrderStatus → Bool
  | .pending, _ => true
  | .confirmed, .pending => false
  | .confirmed, _ => true
  | .inTransit, .inTransit => true
  | .inTransit, .delivered => true
  | .inTransit, .completed => true
  | .inTransit, _ => false
  | .delivered, .delivered => true
  | .delivered, .completed => true
  | .delivered, _ => false
  | .completed, .completed => true
  | .completed, _ => false
  | .cancelled, .cancelled => true
  | .cancelled, _ => false

/-- Does this call attempt a state-machine transition of order `oid`? -/
def targetsOrder : Op → Nat → Prop
  | .confirm o _, oid => o = oid
  | .assign o _ _ _, oid => o = oid
  | .advance o _ _ _, oid => o = oid
  | .complete o _, oid => o = oid
  | .cancel o _, oid => o = oid
  | _, _ => False

/-- The actor role required by each transition (spec section 4.3 table). -/
def roleMatches : Op → Bool
  | .confirm _ a => a.role == Role.farmer
  | .assign _ _ a _ => a.role == Role.farmer || a.role == Role.admin
  | .advance _ _ _ a => a.role == Role.transporter
  | .complete _ a => a.role == Role.buyer
  | .cancel _ a => a.role == Role.buyer || a.role == Role.farmer
  | _ => true

/-- The current-status precondition of each transition (spec section 4.3 table). -/
def statusMatches : Op → OrderStatus → Bool
  | .confirm _ _, st => st == OrderStatus.pending
  | .assign _ _ _ _, st => st == OrderStatus.confirmed
  | .advance _ target _ _, st =>
    (target == OrderStatus.inTransit && st == OrderStatus.confirmed) ||
      (target == OrderStatus.delivered && st == OrderStatus.inTransit)
  | .complete _ _, st => st == OrderStatus.delivered
  | .cancel _ _, st => st == OrderStatus.pending || st == OrderStatus.confirmed
  | _, _ => true

/-! ### Inversion lemmas about the operations -/

theorem statusOf_some {s : EngineState} {oid : Nat} {st : OrderStatus}
    (h : statusOf s oid = some st) :
    ∃ o, findOrder s.orders oid = some o ∧ o.status = st := by
  unfold statusOf at h
  cases hf : findOrder s.orders oid with
  | none => rw [hf] at h; simp at h
  | some o => rw [hf] at h; simp at h; exact ⟨o, rfl, h⟩

theorem findOrder_updateOrder (l : List Order) (oid oid' : Nat) (f : Order → Order)
    (hf : ∀ o, (f o).id = o.id) :
    findOrder (updateOrder l oid f) oid' =
      if oid' = oid then (findOrder l oid').map f else findOrder l oid' :=
  findBy_updateBy _ f hf l oid oid'

theorem statusOf_eq_of_orders_eq {s s' : EngineState} (h : s'.orders = s.orders) (oid : Nat) :
    statusOf s' oid = statusOf s oid := by
  unfold statusOf findOrder
  rw [h]

theorem findOrder_update_setOrder (l : List Order) (oid oid' : Nat) (st : OrderStatus)
    (aid : Nat) :
    findOrder (updateOrder l oid (setOrder st aid)) oid' =
      if oid' = oid then (findOrder l oid').map (setOrder st aid) else findOrder l oid' := by
  unfold findOrder updateOrder
  exact findBy_updateBy (fun o : Order => o.id) (setOrder st aid) (fun _ => rfl) l oid oid'

theorem findOrder_update_setRating (l : List Order) (oid oid' : Nat) (r : Nat) :
    findOrder (updateOrder l oid (setRating r)) oid' =
      if oid' = oid then (findOrder l oid').map (setRating r) else findOrder l oid' := by
  unfold findOrder updateOrder
  exact findBy_updateBy (fun o : Order => o.id) (setRating r) (fun _ => rfl) l oid oid'

theorem releasePayment_ok {s : EngineState} {pid : Nat} {s' : EngineState}
    (h : releasePayment s pid = .ok s') :
    ∃ p o, findPayment s.payments pid = some p ∧ findOrder s.orders p.orderId = some o ∧
      o.status = OrderStatus.completed ∧ p.state = PaymentState.held ∧
      s' = { s with payments := updatePayment s.payments pid (setPaymentState .released) } := by
  unfold releasePayment at h
  split at h
  · exact absurd h (by simp)
  · rename_i p hp
    split at h
    · exact absurd h (by simp)
    · rename_i o ho
      split at h
      · rename_i hco
        cases h
        exact ⟨p, o, hp, ho, hco.1, hco.2, rfl⟩
      · exact absurd h (by simp)

theorem refundPayment_ok {s : EngineState} {pid : Nat} {s' : EngineState}
    (h : refundPayment s pid = .ok s') :
    ∃ p o, findPayment s.payments pid = some p ∧ findOrder s.orders p.orderId = some o ∧
      o.status = OrderStatus.cancelled ∧
      (p.state = PaymentState.initiated ∨ p.state = PaymentState.held) ∧
      s' = { s with payments := updatePayment s.payments pid (setPaymentState .refunded) } := by
  unfold refundPayment at h
  split at h
  · exact absurd h (by simp)
  · rename_i p hp
    split at h
    · exact absurd h (by simp)
    · rename_i o ho
      split at h
      · rename_i hco
        cases h
        exact ⟨p, o, hp, ho, hco.1, hco.2, rfl⟩
      · exact absurd h (by simp)


/-- Single-step status evolution: every operation either leaves an
order's status unchanged or moves it along one legal edge of the state
machine. -/
theorem statusOf_runOp_step (s : EngineState) (op : Op) (oid : Nat) (st : OrderStatus)
    (hst : statusOf s oid = some st) :
    ∃ st', statusOf (runOp s op) oid = some st' ∧
      (st' = st ∨ allowedStep st st' = true) := by
  obtain ⟨o, hfind, hostat⟩ := statusOf_some hst
  cases happly : applyOp s op with
  | error e =>
    refine ⟨st, ?_, Or.inl rfl⟩
    unfold runOp
    rw [happly]
    exact hst
  | ok s' =>
    have hrun : runOp s op = s' := by unfold runOp; rw [happly]
    rw [hrun]
    clear hrun
    cases op with
    | addToCart b pid qty =>
      simp only [applyOp] at happly
      unfold addToCart at happly
      split at happly
      · exact absurd happly (by simp)
      · split at happly
        · exact absurd happly (by simp)
        · cases happly
          exact ⟨st, by rw [statusOf_eq_of_orders_eq rfl]; exact hst, Or.inl rfl⟩
    | updateCartLine b pid qty =>
      simp only [applyOp] at happly
      unfold updateCartLine at happly
      dsimp only at happly
      split at happly <;>
        (cases happly
         exact ⟨st, by rw [statusOf_eq_of_orders_eq rfl]; exact hst, Or.inl rfl⟩)
    | removeFromCart b pid =>
      simp only [applyOp] at happly
      unfold removeFromCart at happly
      cases happly
      exact ⟨st, by rw [statusOf_eq_of_orders_eq rfl]; exact hst, Or.inl rfl⟩
    | clearCart b =>
      simp only [applyOp] at happly
      unfold clearCartOp at happly
      cases happly
      exact ⟨st, by rw [statusOf_eq_of_orders_eq rfl]; exact hst, Or.inl rfl⟩
    | checkout b addr =>
      simp only [applyOp] at happly
      unfold checkout at happly
      dsimp only at happly
      split at happly
      · exact absurd happly (by simp)
      · split at happly
        · split at happly
          · exact absurd happly (by simp)
          · cases happly
            refine ⟨st, ?_, Or.inl rfl⟩
            dsimp only [statusOf, findOrder]
            rw [findBy_append_left _ _ hfind]
            simp [hostat]
        · exact absurd happly (by simp)
    | confirm oid' actor =>
      simp only [applyOp] at happly
      unfold confirmOrder at happly
      split at happly
      · exact absurd happly (by simp)
      · rename_i o2 hfind2
        split at happly
        · split at happly
          · rename_i hrole hpend
            cases happly
            by_cases hoid : oid = oid'
            · subst hoid
              rw [hfind] at hfind2
              cases hfind2
              refine ⟨.confirmed, ?_, Or.inr ?_⟩
              · dsimp only [statusOf]
                rw [findOrder_update_setOrder, if_pos rfl, hfind]
                rfl
              · rw [← hostat, hpend]; rfl
            · refine ⟨st, ?_, Or.inl rfl⟩
              dsimp only [statusOf]
              rw [findOrder_update_setOrder, if_neg hoid, hfind]
              simp [hostat]
          · exact absurd happly (by simp)
        · exact absurd happly (by simp)
    | assign oid' tid actor pickup =>
      simp only [applyOp] at happly
      unfold assignTransporter at happly
      split at happly
      · exact absurd happly (by simp)
      · split at happly
        · split at happly
          · split at happly
            · exact absurd happly (by simp)
            · cases happly
              exact ⟨st, by rw [statusOf_eq_of_orders_eq rfl]; exact hst, Or.inl rfl⟩
          · exact absurd happly (by simp)
        · exact absurd happly (by simp)
    | advance oid' target location actor =>
      simp only [applyOp] at happly
      unfold advanceDelivery at happly
      split at happly
      · exact absurd happly (by simp)
      · rename_i o2 hfind2
        split at happly
        · exact absurd happly (by simp)
        · split at happly
          · split at happly
            · rename_i hcond
              cases happly
              by_cases hoid : oid = oid'
              · subst hoid
                rw [hfind] at hfind2
                cases hfind2
                refine ⟨.inTransit, ?_, Or.inr ?_⟩
                · dsimp only [statusOf]
                  rw [findOrder_update_setOrder, if_pos rfl, hfind]
                  rfl
                · rw [← hostat, hcond.2]; rfl
              · refine ⟨st, ?_, Or.inl rfl⟩
                dsimp only [statusOf]
                rw [findOrder_update_setOrder, if_neg hoid, hfind]
                simp [hostat]
            · split at happly
              · rename_i hcond2
                cases happly
                by_cases hoid : oid = oid'
                · subst hoid
                  rw [hfind] at hfind2
                  cases hfind2
                  refine ⟨.delivered, ?_, Or.inr ?_⟩
                  · dsimp only [statusOf]
                    rw [findOrder_update_setOrder, if_pos rfl, hfind]
                    rfl
                  · rw [← hostat, hcond2.2]; rfl
                · refine ⟨st, ?_, Or.inl rfl⟩
                  dsimp only [statusOf]
                  rw [findOrder_update_setOrder, if_neg hoid, hfind]
                  simp [hostat]
              · exact absurd happly (by simp)
          · exact absurd happly (by simp)
    | complete oid' actor =>
      simp only [applyOp] at happly
      unfold completeOrder at happly
      split at happly
      · exact absurd happly (by simp)
      · rename_i o2 hfind2
        split at happly
        · split at happly
          · rename_i hrole hdel
            obtain ⟨p, o3, hp, ho3, hoc, hph, hs'⟩ := releasePayment_ok happly
            subst hs'
            by_cases hoid : oid = oid'
            · subst hoid
              rw [hfind] at hfind2
              cases hfind2
              refine ⟨.completed, ?_, Or.inr ?_⟩
              · dsimp only [statusOf]
                rw [findOrder_update_setOrder, if_pos rfl, hfind]
                rfl
              · rw [← hostat, hdel]; rfl
            · refine ⟨st, ?_, Or.inl rfl⟩
              dsimp only [statusOf]
              rw [findOrder_update_setOrder, if_neg hoid, hfind]
              simp [hostat]
          · exact absurd happly (by simp)
        · exact absurd happly (by simp)
    | cancel oid' actor =>
      simp only [applyOp] at happly
      unfold cancelOrder at happly
      split at happly
      · exact absurd happly (by simp)
      · rename_i o2 hfind2
        split at happly
        · split at happly
          · rename_i hown hpc
            cases happly
            by_cases hoid : oid = oid'
            · subst hoid
              rw [hfind] at hfind2
              cases hfind2
              refine ⟨.cancelled, ?_, Or.inr ?_⟩
              · dsimp only [statusOf]
                rw [findOrder_update_setOrder, if_pos rfl, hfind]
                rfl
              · rw [← hostat]
                cases hpc with
                | inl hpend => rw [hpend]; rfl
                | inr hconf => rw [hconf]; rfl
            · refine ⟨st, ?_, Or.inl rfl⟩
              dsimp only [statusOf]
              rw [findOrder_update_setOrder, if_neg hoid, hfind]
              simp [hostat]
          · exact absurd happly (by simp)
        · exact absurd happly (by simp)
    | rate oid' actor rating =>
      simp only [applyOp] at happly
      unfold rateOrder at happly
      split at happly
      · exact absurd happly (by simp)
      · split at happly
        · split at happly
          · split at happly
            · split at happly
              · exact absurd happly (by simp)
              · cases happly
                refine ⟨st, ?_, Or.inl rfl⟩
                dsimp only [statusOf]
                rw [findOrder_update_setRating]
                by_cases hoid : oid = oid'
                · subst hoid
                  rw [if_pos rfl, hfind]
                  simp [hostat, setRating]
                · rw [if_neg hoid, hfind]
                  simp [hostat]
            · exact absurd happly (by simp)
          · exact absurd happly (by simp)
        · exact absurd happly (by simp)
    | paymentHeld pid =>
      simp only [applyOp] at happly
      unfold markHeld at happly
      split at happly
      · exact absurd happly (by simp)
      · split at happly
        · cases happly
          exact ⟨st, by rw [statusOf_eq_of_orders_eq rfl]; exact hst, Or.inl rfl⟩
        · cases happly
          exact ⟨st, hst, Or.inl rfl⟩
        · exact absurd happly (by simp)
    | paymentFailed pid =>
      simp only [applyOp] at happly
      unfold markFailed at happly
      split at happly
      · exact absurd happly (by simp)
      · split at happly
        · cases happly
          exact ⟨st, by rw [statusOf_eq_of_orders_eq rfl]; exact hst, Or.inl rfl⟩
        · exact absurd happly (by simp)
    | paymentRelease pid =>
      simp only [applyOp] at happly
      obtain ⟨p, o3, hp, ho3, hoc, hph, hs'⟩ := releasePayment_ok happly
      subst hs'
      exact ⟨st, by rw [statusOf_eq_of_orders_eq rfl]; exact hst, Or.inl rfl⟩
    | paymentRefund pid =>
      simp only [applyOp] at happly
      obtain ⟨p, o3, hp, ho3, hoc, hph, hs'⟩ := refundPayment_ok happly
      subst hs'
      exact ⟨st, by rw [statusOf_eq_of_orders_eq rfl]; exact hst, Or.inl rfl⟩

/-- A transition op attempted on an unknown order id, or with a
non-matching actor role or non-matching current status, fails with
`InvalidTransition`. -/
theorem targeted_invalid (s : EngineState) (op : Op) (oid : Nat) (ht : targetsOrder op oid) :
    (findOrder s.orders oid = none → applyOp s op = .error .invalidTransition) ∧
    (∀ o, findOrder s.orders oid = some o →
      roleMatches op = false ∨ statusMatches op o.status = false →
      applyOp s op = .error .invalidTransition) := by
  cases op with
  | addToCart b pid qty => simp [targetsOrder] at ht
  | updateCartLine b pid qty => simp [targetsOrder] at ht
  | removeFromCart b pid => simp [targetsOrder] at ht
  | clearCart b => simp [targetsOrder] at ht
  | checkout b addr => simp [targetsOrder] at ht
  | rate oid' actor rating => simp [targetsOrder] at ht
  | paymentHeld pid => simp [targetsOrder] at ht
  | paymentFailed pid => simp [targetsOrder] at ht
  | paymentRelease pid => simp [targetsOrder] at ht
  | paymentRefund pid => simp [targetsOrder] at ht
  | confirm oid' actor =>
    simp only [targetsOrder] at ht
    subst ht
    constructor
    · intro hnone
      simp only [applyOp]
      unfold confirmOrder
      rw [hnone]
    · intro o hfind hbad
      simp only [applyOp]
      unfold confirmOrder
      simp only [hfind]
      by_cases hcond : actor.role = Role.farmer ∧ actor.id = o.farmerId
      · rw [if_pos hcond]
        by_cases hp : o.status = OrderStatus.pending
        · exfalso
          cases hbad with
          | inl hr => simp [roleMatches, hcond.1] at hr
          | inr hs => simp [statusMatches, hp] at hs
        · rw [if_neg hp]
      · rw [if_neg hcond]
  | assign oid' tid actor pickup =>
    simp only [targetsOrder] at ht
    subst ht
    constructor
    · intro hnone
      simp only [applyOp]
      unfold assignTransporter
      rw [hnone]
    · intro o hfind hbad
      simp only [applyOp]
      unfold assignTransporter
      simp only [hfind]
      by_cases hcond : (actor.role = Role.farmer ∧ actor.id = o.farmerId) ∨
          actor.role = Role.admin
      · rw [if_pos hcond]
        by_cases hp : o.status = OrderStatus.confirmed
        · exfalso
          cases hbad with
          | inl hr =>
            cases hcond with
            | inl hfarm => simp [roleMatches, hfarm.1] at hr
            | inr hadmin => simp [roleMatches, hadmin] at hr
          | inr hs => simp [statusMatches, hp] at hs
        · rw [if_neg hp]
      · rw [if_neg hcond]
  | advance oid' target location actor =>
    simp only [targetsOrder] at ht
    subst ht
    constructor
    · intro hnone
      simp only [applyOp]
      unfold advanceDelivery
      rw [hnone]
    · intro o hfind hbad
      simp only [applyOp]
      unfold advanceDelivery
      simp only [hfind]
      cases hd : findDelivery s.deliveries oid' with
      | none => simp only [hd]
      | some d =>
        simp only [hd]
        by_cases hcond : actor.role = Role.transporter ∧ actor.id = d.transporterId
        · rw [if_pos hcond]
          cases hbad with
          | inl hr => exfalso; simp [roleMatches, hcond.1] at hr
          | inr hs =>
            by_cases h1 : target = OrderStatus.inTransit ∧ o.status = OrderStatus.confirmed
            · exfalso; simp [statusMatches, h1.1, h1.2] at hs
            · rw [if_neg h1]
              by_cases h2 : target = OrderStatus.delivered ∧ o.status = OrderStatus.inTransit
              · exfalso; simp [statusMatches, h2.1, h2.2] at hs
              · rw [if_neg h2]
        · rw [if_neg hcond]
  | complete oid' actor =>
    simp only [targetsOrder] at ht
    subst ht
    constructor
    · intro hnone
      simp only [applyOp]
      unfold completeOrder
      rw [hnone]
    · intro o hfind hbad
      simp only [applyOp]
      unfold completeOrder
      simp only [hfind]
      by_cases hcond : actor.role = Role.buyer ∧ actor.id = o.buyerId
      · rw [if_pos hcond]
        by_cases hp : o.status = OrderStatus.delivered
        · exfalso
          cases hbad with
          | inl hr => simp [roleMatches, hcond.1] at hr
          | inr hs => simp [statusMatches, hp] at hs
        · rw [if_neg hp]
      · rw [if_neg hcond]
  | cancel oid' actor =>
    simp only [targetsOrder] at ht
    subst ht
    constructor
    · intro hnone
      simp only [applyOp]
      unfold cancelOrder
      rw [hnone]
    · intro o hfind hbad
      simp only [applyOp]
      unfold cancelOrder
      simp only [hfind]
      by_cases hcond : (actor.role = Role.buyer ∧ actor.id = o.buyerId) ∨
          (actor.role = Role.farmer ∧ actor.id = o.farmerId)
      · rw [if_pos hcond]
        by_cases hp : o.status = OrderStatus.pending ∨ o.status = OrderStatus.confirmed
        · exfalso
          cases hbad with
          | inl hr =>
            cases hcond with
            | inl hbuy => simp [roleMatches, hbuy.1] at hr
            | inr hfarm => simp [roleMatches, hfarm.1] at hr
          | inr hs =>
            cases hp with
            | inl h => simp [statusMatches, h] at hs
            | inr h => simp [statusMatches, h] at hs
        · rw [if_neg hp]
      · rw [if_neg hcond]

/-- A transition op attempted on an order in a terminal status has a
false status precondition. -/
theorem statusMatches_terminal {op : Op} {oid : Nat} (ht : targetsOrder op oid)
    {st : OrderStatus} (hterm : isTerminal st = true) : statusMatches op st = false := by
  cases op with
  | addToCart b pid qty => simp [targetsOrder] at ht
  | updateCartLine b pid qty => simp [targetsOrder] at ht
  | removeFromCart b pid => simp [targetsOrder] at ht
  | clearCart b => simp [targetsOrder] at ht
  | checkout b addr => simp [targetsOrder] at ht
  | rate oid' actor rating => simp [targetsOrder] at ht
  | paymentHeld pid => simp [targetsOrder] at ht
  | paymentFailed pid => simp [targetsOrder] at ht
  | paymentRelease pid => simp [targetsOrder] at ht
  | paymentRefund pid => simp [targetsOrder] at ht
  | confirm oid' actor => cases st <;> first | rfl | simp [isTerminal] at hterm
  | assign oid' tid actor pickup => cases st <;> first | rfl | simp [isTerminal] at hterm
  | advance oid' target location actor =>
    cases st <;> cases target <;> first | rfl | simp [isTerminal] at hterm
  | complete oid' actor => cases st <;> first | rfl | simp [isTerminal] at hterm
  | cancel oid' actor => cases st <;> first | rfl | simp [isTerminal] at hterm

theorem chainLe_refl : ∀ st : OrderStatus, chainLe st st = true := by decide

theorem chainLe_trans_step : ∀ st st1 st' : OrderStatus,
    (st1 = st ∨ allowedStep st st1 = true) → chainLe st1 st' = true →
    chainLe st st' = true := by decide

/-- Over any sequence of operations, an order's status only moves
forward along the reflexive-transitive closure of the legal edges. -/
theorem statusOf_runOps_chain (ops : List Op) :
    ∀ (s : EngineState) (oid : Nat) (st : OrderStatus), statusOf s oid = some st →
      ∃ st', statusOf (runOps s ops) oid = some st' ∧ chainLe st st' = true := by
  induction ops with
  | nil => intro s oid st h; exact ⟨st, h, chainLe_refl st⟩
  | cons op ops ih =>
    intro s oid st h
    obtain ⟨st1, h1, hstep⟩ := statusOf_runOp_step s op oid st h
    obtain ⟨st', h', hchain⟩ := ih (runOp s op) oid st1 h1
    exact ⟨st', h', chainLe_trans_step st st1 st' hstep hchain⟩

theorem findPayment_update_setState (l : List Payment) (pid pid' : Nat) (st : PaymentState) :
    findPayment (updatePayment l pid (setPaymentState st)) pid' =
      if pid' = pid then (findPayment l pid').map (setPaymentState st) else findPayment l pid' := by
  unfold findPayment updatePayment
  exact findBy_updateBy (fun p : Payment => p.orderId) (setPaymentState st) (fun _ => rfl) l pid pid'

theorem releasePayment_error {s : EngineState} {pid : Nat} {p : Payment} {o : Order}
    (hp : findPayment s.payments pid = some p) (ho : findOrder s.orders p.orderId = some o)
    (hbad : ¬(o.status = OrderStatus.completed ∧ p.state = PaymentState.held)) :
    releasePayment s pid = .error .illegalPaymentState := by
  unfold releasePayment
  simp only [hp, ho]
  rw [if_neg hbad]

theorem refundPayment_error {s : EngineState} {pid : Nat} {p : Payment} {o : Order}
    (hp : findPayment s.payments pid = some p) (ho : findOrder s.orders p.orderId = some o)
    (hbad : ¬(o.status = OrderStatus.cancelled ∧
      (p.state = PaymentState.initiated ∨ p.state = PaymentState.held))) :
    refundPayment s pid = .error .illegalPaymentState := by
  unfold refundPayment
  simp only [hp, ho]
  rw [if_neg hbad]

theorem cancelOrder_ok {s : EngineState} {oid : Nat} {actor : Actor} {s' : EngineState}
    (h : cancelOrder s oid actor = .ok s') :
    ∃ o, findOrder s.orders oid = some o ∧
      (o.status = OrderStatus.pending ∨ o.status = OrderStatus.confirmed) ∧
      s' = { s with orders := updateOrder s.orders oid (setOrder .cancelled actor.id),
                    inventory := restoreItems s.inventory o.items,
                    payments := updatePayment s.payments oid refundIfOpen,
                    clock := s.clock + 1 } := by
  unfold cancelOrder at h
  split at h
  · exact absurd h (by simp)
  · rename_i o hfind
    split at h
    · split at h
      · rename_i hown hpc
        cases h
        exact ⟨o, hfind, hpc, rfl⟩
      · exact absurd h (by simp)
    · exact absurd h (by simp)

/-! ### Fee invariant and reachable engine states -/

/-- The money invariant of every order: total is subtotal plus fee and
the fee is the rounded product of subtotal and the injected rate. -/
def FeeInv (s : EngineState) : Prop :=
  ∀ o ∈ s.orders, o.total = o.subtotal + o.platformFee ∧
    o.platformFee = roundHalfUpFee o.subtotal s.feeNum s.feeDen

/-- A fresh engine with the injected fee rate, catalog and inventory, and
no carts, orders, payments or deliveries. -/
def initState (num den : Nat) (catalog : List Product) (inventory : List (Nat × Nat)) :
    EngineState :=
  { feeNum := num, feeDen := den, catalog := catalog, inventory := inventory,
    carts := [], orders := [], payments := [], deliveries := [],
    nextOrderId := 0, clock := 0 }

/-- Engine states obtainable through the orchestrator's public surface. -/
inductive Reachable : EngineState → Prop
  | base (num den : Nat) (catalog : List Product) (inventory : List (Nat × Nat)) :
      Reachable (initState num den catalog inventory)
  | step (s : EngineState) (op : Op) : Reachable s → Reachable (runOp s op)

theorem mem_updateBy {α : Type} (key : α → Nat) (l : List α) (k : Nat) (f : α → α) (x : α)
    (hx : x ∈ updateBy key l k f) : x ∈ l ∨ ∃ y, y ∈ l ∧ x = f y := by
  induction l with
  | nil => simp [updateBy] at hx
  | cons a rest ih =>
    unfold updateBy at hx
    by_cases ha : key a = k
    · rw [if_pos ha] at hx
      rcases List.mem_cons.mp hx with h | h
      · exact Or.inr ⟨a, List.mem_cons_self a rest, h⟩
      · rcases ih h with h' | ⟨y, hy, hxy⟩
        · exact Or.inl (List.mem_cons_of_mem a h')
        · exact Or.inr ⟨y, List.mem_cons_of_mem a hy, hxy⟩
    · rw [if_neg ha] at hx
      rcases List.mem_cons.mp hx with h | h
      · exact Or.inl (h ▸ List.mem_cons_self a rest)
      · rcases ih h with h' | ⟨y, hy, hxy⟩
        · exact Or.inl (List.mem_cons_of_mem a h')
        · exact Or.inr ⟨y, List.mem_cons_of_mem a hy, hxy⟩

theorem mkOrders_fee (buyer : Nat) (addr : String) (cat : List Product)
    (lines : List CartLine) (num den : Nat) :
    ∀ (fs : List Nat) (oid0 : Nat) (o : Order),
      o ∈ mkOrders buyer addr cat lines num den oid0 fs →
      o.total = o.subtotal + o.platformFee ∧
        o.platformFee = roundHalfUpFee o.subtotal num den := by
  intro fs
  induction fs with
  | nil => intro oid0 o ho; simp [mkOrders] at ho
  | cons f fs ih =>
    intro oid0 o ho
    unfold mkOrders at ho
    rcases List.mem_cons.mp ho with h | h
    · subst h; exact ⟨rfl, rfl⟩
    · exact ih _ o h

/-- Every operation preserves the money invariant. -/
theorem feeInv_runOp (s : EngineState) (op : Op) (h : FeeInv s) : FeeInv (runOp s op) := by
  cases happly : applyOp s op with
  | error e =>
    unfold runOp
    rw [happly]
    exact h
  | ok s' =>
    have hrun : runOp s op = s' := by unfold runOp; rw [happly]
    rw [hrun]
    clear hrun
    cases op with
    | addToCart b pid qty =>
      simp only [applyOp] at happly
      unfold addToCart at happly
      split at happly
      · exact absurd happly (by simp)
      · split at happly
        · exact absurd happly (by simp)
        · cases happly; exact h
    | updateCartLine b pid qty =>
      simp only [applyOp] at happly
      unfold updateCartLine at happly
      dsimp only at happly
      split at happly <;> (cases happly; exact h)
    | removeFromCart b pid =>
      simp only [applyOp] at happly
      unfold removeFromCart at happly
      cases happly; exact h
    | clearCart b =>
      simp only [applyOp] at happly
      unfold clearCartOp at happly
      cases happly; exact h
    | checkout b addr =>
      simp only [applyOp] at happly
      unfold checkout at happly
      dsimp only at happly
      split at happly
      · exact absurd happly (by simp)
      · split at happly
        · split at happly
          · exact absurd happly (by simp)
          · cases happly
            intro o ho
            rcases List.mem_append.mp ho with hl | hr
            · exact h o hl
            · exact mkOrders_fee b addr s.catalog (cartLinesOf s b) s.feeNum s.feeDen _ _ o hr
        · exact absurd happly (by simp)
    | confirm oid actor =>
      simp only [applyOp] at happly
      unfold confirmOrder at happly
      split at happly
      · exact absurd happly (by simp)
      · split at happly
        · split at happly
          · cases happly
            intro o ho
            rcases mem_updateBy _ _ _ _ o ho with hl | ⟨y, hy, hxy⟩
            · exact h o hl
            · subst hxy; exact h y hy
          · exact absurd happly (by simp)
        · exact absurd happly (by simp)
    | assign oid tid actor pickup =>
      simp only [applyOp] at happly
      unfold assignTransporter at happly
      split at happly
      · exact absurd happly (by simp)
      · split at happly
        · split at happly
          · split at happly
            · exact absurd happly (by simp)
            · cases happly; exact h
          · exact absurd happly (by simp)
        · exact absurd happly (by simp)
    | advance oid target location actor =>
      simp only [applyOp] at happly
      unfold advanceDelivery at happly
      split at happly
      · exact absurd happly (by simp)
      · split at happly
        · exact absurd happly (by simp)
        · split at happly
          · split at happly
            · cases happly
              intro o ho
              rcases mem_updateBy _ _ _ _ o ho with hl | ⟨y, hy, hxy⟩
              · exact h o hl
              · subst hxy; exact h y hy
            · split at happly
              · cases happly
                intro o ho
                rcases mem_updateBy _ _ _ _ o ho with hl | ⟨y, hy, hxy⟩
                · exact h o hl
                · subst hxy; exact h y hy
              · exact absurd happly (by simp)
          · exact absurd happly (by simp)
    | complete oid actor =>
      simp only [applyOp] at happly
      unfold completeOrder at happly
      split at happly
      · exact absurd happly (by simp)
      · split at happly
        · split at happly
          · obtain ⟨p, o3, hp, ho3, hoc, hph, hs'⟩ := releasePayment_ok happly
            subst hs'
            intro o ho
            rcases mem_updateBy _ _ _ _ o ho with hl | ⟨y, hy, hxy⟩
            · exact h o hl
            · subst hxy; exact h y hy
          · exact absurd happly (by simp)
        · exact absurd happly (by simp)
    | cancel oid actor =>
      simp only [applyOp] at happly
      obtain ⟨o2, hfind, hpc, hs'⟩ := cancelOrder_ok happly
      subst hs'
      intro o ho
      rcases mem_updateBy _ _ _ _ o ho with hl | ⟨y, hy, hxy⟩
      · exact h o hl
      · subst hxy; exact h y hy
    | rate oid actor rating =>
      simp only [applyOp] at happly
      unfold rateOrder at happly
      split at happly
      · exact absurd happly (by simp)
      · split at happly
        · split at happly
          · split at happly
            · split at happly
              · exact absurd happly (by simp)
              · cases happly
                intro o ho
                rcases mem_updateBy _ _ _ _ o ho with hl | ⟨y, hy, hxy⟩
                · exact h o hl
                · subst hxy; exact h y hy
            · exact absurd happly (by simp)
          · exact absurd happly (by simp)
        · exact absurd happly (by simp)
    | paymentHeld pid =>
      simp only [applyOp] at happly
      unfold markHeld at happly
      split at happly
      · exact absurd happly (by simp)
      · split at happly
        · cases happly; exact h
        · cases happly; exact h
        · exact absurd happly (by simp)
    | paymentFailed pid =>
      simp only [applyOp] at happly
      unfold markFailed at happly
      split at happly
      · exact absurd happly (by simp)
      · split at happly
        · cases happly; exact h
        · exact absurd happly (by simp)
    | paymentRelease pid =>
      simp only [applyOp] at happly
      obtain ⟨p, o3, hp, ho3, hoc, hph, hs'⟩ := releasePayment_ok happly
      subst hs'
      exact h
    | paymentRefund pid =>
      simp only [applyOp] at happly
      obtain ⟨p, o3, hp, ho3, hoc, hph, hs'⟩ := refundPayment_ok happly
      subst hs'
      exact h

/-- All reachable engine states satisfy the money invariant. -/
theorem feeInv_reachable {s : EngineState} (h : Reachable s) : FeeInv s := by
  induction h with
  | base num den catalog inventory => intro o ho; simp [initState] at ho
  | step s op _ ih => exact feeInv_runOp s op ih

/-! ### Fail-closed core reads (spec section 9, design note on fallback data) -/

/-- Aggregate numbers shown on the dashboard. -/
structure DashboardStats where
  totalRevenue : Nat
  completedOrders : Nat
  pendingOrders : Nat
deriving DecidableEq, Repr

/-- Dashboard statistics computed from real orders, translated from the
real-data path of the source dashboard (completed rows are COMPLETED or
DELIVERED orders, revenue is summed over them; the source additionally
counts a legacy PROCESSING status that does not exist in the engine's
taxonomy). -/
def computeStats (orders : List Order) : DashboardStats :=
  let completed := orders.filter (fun o =>
    o.status == OrderStatus.completed || o.status == OrderStatus.delivered)
  let pending := orders.filter (fun o => o.status == OrderStatus.pending)
  { totalRevenue := (completed.map (fun o => o.total)).sum,
    completedOrders := completed.length,
    pendingOrders := pending.length }

/-- Modelled from the spec: the core dashboard read fails closed — a
failed underlying fetch is reported to the caller, never replaced by
fabricated statistics (the source frontend substitutes mock numbers on
error; the spec forbids reproducing that in the core). -/
def fetchDashboardData (fetch : Except EngineErr (List Order)) :
    Except EngineErr DashboardStats :=
  match fetch with
  | .ok orders => .ok (computeStats orders)
  | .error e => .error e

/-- Modelled from the spec: the core deliveries listing fails closed
(the source's delivery page substitutes a hardcoded mockDeliveries array
when the fetch produced nothing). -/
def listDeliveries (fetch : Except EngineErr (List DeliveryRecord)) :
    Except EngineErr (List DeliveryRecord) :=
  match fetch with
  | .ok ds => .ok ds
  | .error e => .error e

/-! ### Product page quantity control

Translated from the source product detail page: the quantity state
starts at useState(1); the minus button stores Math.max(1, quantity - 1),
the plus button stores quantity + 1, and the text input stores
Math.max(1, Number.parseInt(value) || 1). -/

/-- JS Number.parseInt on the input string: optional sign, then leading
decimal digits; none models NaN.  Whitespace trimming and hex prefixes
are omitted: every result flows through Math.max(1, _) below, so they
cannot affect the bound. -/
def parseIntJS (s : String) : Option Int :=
  let chars := s.toList
  let signDigits : Int × List Char :=
    match chars with
    | '-' :: rest => (-1, rest)
    | '+' :: rest => (1, rest)
    | _ => (1, chars)
  let leading := signDigits.2.takeWhile (fun c => c.isDigit)
  if leading.isEmpty then none
  else some (signDigits.1 *
    ((leading.foldl (fun acc c => acc * 10 + (c.toNat - Char.toNat '0')) 0 : Nat) : Int))

/-- The onChange handler's value: Math.max(1, Number.parseInt(v) || 1).
NaN and 0 are falsy in JS, so both coerce to 1 before the max. -/
def quantityFromInput (v : String) : Int :=
  let parsed : Int :=
    match parseIntJS v with
    | some n => if n = 0 then 1 else n
    | none => 1
  max 1 parsed

/-- One interaction with the quantity control. -/
inductive QtyEvent
  | dec
  | inc
  | input (v : String)

/-- State update of the quantity control for one interaction. -/
def applyQtyEvent (q : Int) : QtyEvent → Int
  | .dec => max 1 (q - 1)
  | .inc => q + 1
  | .input v => quantityFromInput v

/-- The quantity state after a sequence of interactions, starting from
the initial useState(1); this is the value the add-to-cart button sends. -/
def quantityAfter (events : List QtyEvent) : Int :=
  events.foldl applyQtyEvent 1

theorem one_le_applyQtyEvent (q : Int) (hq : 1 ≤ q) (e : QtyEvent) :
    1 ≤ applyQtyEvent q e := by
  cases e with
  | dec => exact le_max_left 1 (q - 1)
  | inc => show 1 ≤ q + 1; omega
  | input v => exact le_max_left 1 _

theorem one_le_foldl_applyQtyEvent (events : List QtyEvent) :
    ∀ q : Int, 1 ≤ q → 1 ≤ events.foldl applyQtyEvent q := by
  induction events with
  | nil => intro q hq; exact hq
  | cons e rest ih =>
    intro q hq
    exact ih (applyQtyEvent q e) (one_le_applyQtyEvent q hq e)

/-! ### Concrete fixtures used to exercise the theorems -/

/-- A catalog product: id 1, farmer 7, unit price 150 minor units. -/
def witProduct : Product := { id := 1, farmerId := 7, unitPrice := 150 }

/-- An order over two units of the product, with the 3 percent fee. -/
def witOrder (st : OrderStatus) : Order :=
  { id := 0, buyerId := 2, farmerId := 7,
    items := [{ productId := 1, quantity := 2, unitPrice := 150 }],
    subtotal := 300, platformFee := 9, total := 309, status := st,
    deliveryAddress := "Kisii Town", history := [(OrderStatus.pending, 2)], rating := none }

/-- An engine holding one order and its payment in the given states. -/
def witState (st : OrderStatus) (pst : PaymentState) : EngineState :=
  { feeNum := 3, feeDen := 100, catalog := [witProduct], inventory := [(1, 8)],
    carts := [], orders := [witOrder st],
    payments := [{ orderId := 0, amount := 309, state := pst }],
    deliveries := [], nextOrderId := 1, clock := 5 }

/-- A delivery record whose latest update is `delivered`. -/
def witDelivery : DeliveryRecord :=
  { orderId := 0, transporterId := 9, pickupAddress := "Farm gate",
    deliveryAddress := "Kisii Town",
    trackingUpdates := [{ location := "Kisii Town", status := DeliveryStatus.delivered,
                          note := "" }],
    completedAt := none }

/-! ### The claims -/

/-- Claim C1: for every order and every sequence of transitions, the
status only advances along PENDING to CONFIRMED to IN_TRANSIT to
DELIVERED to COMPLETED, with CANCELLED reachable only from PENDING or
CONFIRMED (allowedStep lists exactly those edges and chainLe is their
reflexive-transitive closure), and from the terminal statuses COMPLETED
and CANCELLED every further transition attempt fails. -/
theorem claim_C1_status_chain (s : EngineState) (oid : Nat) (st : OrderStatus)
    (hst : statusOf s oid = some st) :
    (∀ op, ∃ st', statusOf (runOp s op) oid = some st' ∧
      (st' = st ∨ allowedStep st st' = true)) ∧
    (∀ ops, ∃ st', statusOf (runOps s ops) oid = some st' ∧ chainLe st st' = true) ∧
    (isTerminal st = true → ∀ op, targetsOrder op oid →
      applyOp s op = .error .invalidTransition) := by
  refine ⟨fun op => statusOf_runOp_step s op oid st hst,
          fun ops => statusOf_runOps_chain ops s oid st hst, ?_⟩
  intro hterm op ht
  obtain ⟨o, hfind, hostat⟩ := statusOf_some hst
  refine (targeted_invalid s op oid ht).2 o hfind (Or.inr ?_)
  rw [hostat]
  exact statusMatches_terminal ht hterm

theorem claim_C1_status_chain_witness :
    applyOp (witState OrderStatus.completed PaymentState.released)
      (Op.cancel 0 ⟨2, Role.buyer⟩) = .error .invalidTransition :=
  (claim_C1_status_chain (witState OrderStatus.completed PaymentState.released) 0
      OrderStatus.completed (by rfl)).2.2 (by rfl) (Op.cancel 0 ⟨2, Role.buyer⟩) rfl

/-- Claim C2: every reachable order satisfies total = subtotal + fee and
fee = round_half_up(subtotal times the injected rate, default 3/100);
checking out a cart of 10 units at unit price 150 yields exactly one
order with subtotal 1500, fee 45, total 1545 and status PENDING. -/
theorem claim_C2_fee_totals :
    (∀ s, Reachable s → FeeInv s) ∧
    ((runOps (initState defaultFeeNum defaultFeeDen [witProduct] [(1, 10)])
        [Op.addToCart 2 1 10, Op.checkout 2 "Kisii Town"]).orders.map
      (fun o => (o.subtotal, o.platformFee, o.total, o.status)) =
      [(1500, 45, 1545, OrderStatus.pending)]) := by
  exact ⟨fun s h => feeInv_reachable h, by rfl⟩

theorem claim_C2_fee_totals_witness :
    FeeInv (initState defaultFeeNum defaultFeeDen [witProduct] [(1, 10)]) :=
  (claim_C2_fee_totals).1 _ (Reachable.base _ _ _ _)

/-- Claim C3: a transition invoked from a non-matching current state, by
a non-matching actor role, or on an unknown order id fails with
InvalidTransition — reported to the caller, never a silent no-op — and
any failing operation leaves the whole engine state untouched (the
transactional wrapper applies side effects all together or not at all). -/
theorem claim_C3_invalid_transition (s : EngineState) (op : Op) (oid : Nat)
    (ht : targetsOrder op oid) :
    (findOrder s.orders oid = none → applyOp s op = .error .invalidTransition) ∧
    (∀ o, findOrder s.orders oid = some o →
      roleMatches op = false ∨ statusMatches op o.status = false →
      applyOp s op = .error .invalidTransition) ∧
    (∀ e, applyOp s op = .error e → runOp s op = s) := by
  refine ⟨(targeted_invalid s op oid ht).1, (targeted_invalid s op oid ht).2, ?_⟩
  intro e he
  unfold runOp
  rw [he]

theorem claim_C3_invalid_transition_witness :
    applyOp (witState OrderStatus.pending PaymentState.initiated)
      (Op.advance 0 OrderStatus.inTransit "Kisii Town" ⟨9, Role.transporter⟩) =
      .error .invalidTransition ∧
    runOp (witState OrderStatus.pending PaymentState.initiated)
      (Op.advance 0 OrderStatus.inTransit "Kisii Town" ⟨9, Role.transporter⟩) =
      witState OrderStatus.pending PaymentState.initiated := by
  have h := claim_C3_invalid_transition (witState OrderStatus.pending PaymentState.initiated)
    (Op.advance 0 OrderStatus.inTransit "Kisii Town" ⟨9, Role.transporter⟩) 0 rfl
  have h1 := h.2.1 (witOrder OrderStatus.pending) (by rfl) (Or.inr (by rfl))
  exact ⟨h1, h.2.2 _ h1⟩

/-- Claim C4: released and refunded are mutually exclusive terminal
payment states: release succeeds exactly when the linked order is
COMPLETED and the payment held, refund succeeds only when the linked
order is CANCELLED, and every other combination of order status and
payment state fails with IllegalPaymentState. -/
theorem claim_C4_payment_exclusivity (s : EngineState) (pid : Nat) (p : Payment) (o : Order)
    (hp : findPayment s.payments pid = some p)
    (ho : findOrder s.orders p.orderId = some o) :
    ((∃ s', releasePayment s pid = .ok s') ↔
      (o.status = OrderStatus.completed ∧ p.state = PaymentState.held)) ∧
    ((∃ s', refundPayment s pid = .ok s') → o.status = OrderStatus.cancelled) ∧
    (¬(o.status = OrderStatus.completed ∧ p.state = PaymentState.held) →
      releasePayment s pid = .error .illegalPaymentState) ∧
    (¬(o.status = OrderStatus.cancelled ∧
        (p.state = PaymentState.initiated ∨ p.state = PaymentState.held)) →
      refundPayment s pid = .error .illegalPaymentState) ∧
    ((p.state = PaymentState.released ∨ p.state = PaymentState.refunded) →
      releasePayment s pid = .error .illegalPaymentState ∧
      refundPayment s pid = .error .illegalPaymentState) := by
  refine ⟨⟨?_, ?_⟩, ?_, ?_, ?_, ?_⟩
  · rintro ⟨s', h⟩
    obtain ⟨p2, o2, hp2, ho2, hoc, hph, _⟩ := releasePayment_ok h
    rw [hp] at hp2
    cases hp2
    rw [ho] at ho2
    cases ho2
    exact ⟨hoc, hph⟩
  · rintro ⟨h1, h2⟩
    refine ⟨{ s with payments := updatePayment s.payments pid (setPaymentState .released) }, ?_⟩
    unfold releasePayment
    simp only [hp, ho]
    rw [if_pos ⟨h1, h2⟩]
  · rintro ⟨s', h⟩
    obtain ⟨p2, o2, hp2, ho2, hoc, _, _⟩ := refundPayment_ok h
    rw [hp] at hp2
    cases hp2
    rw [ho] at ho2
    cases ho2
    exact hoc
  · intro hbad
    exact releasePayment_error hp ho hbad
  · intro hbad
    exact refundPayment_error hp ho hbad
  · intro hterm
    refine ⟨releasePayment_error hp ho ?_, refundPayment_error hp ho ?_⟩
    · rintro ⟨_, hheld⟩
      cases hterm with
      | inl h => rw [h] at hheld; simp at hheld
      | inr h => rw [h] at hheld; simp at hheld
    · rintro ⟨_, hopen⟩
      cases hterm with
      | inl h =>
        cases hopen with
        | inl h2 => rw [h] at h2; simp at h2
        | inr h2 => rw [h] at h2; simp at h2
      | inr h =>
        cases hopen with
        | inl h2 => rw [h] at h2; simp at h2
        | inr h2 => rw [h] at h2; simp at h2

theorem claim_C4_payment_exclusivity_witness :
    refundPayment (witState OrderStatus.completed PaymentState.held) 0 =
      .error .illegalPaymentState :=
  (claim_C4_payment_exclusivity (witState OrderStatus.completed PaymentState.held) 0
    { orderId := 0, amount := 309, state := PaymentState.held }
    (witOrder OrderStatus.completed) (by rfl) (by rfl)).2.2.2.1 (by decide)

/-- Claim C5: releasing an already-released payment is rejected: the
second release call fails with IllegalPaymentState and the state
produced by the first, successful call is preserved unchanged. -/
theorem claim_C5_release_idempotent (s s' : EngineState) (pid : Nat)
    (h : releasePayment s pid = .ok s') :
    releasePayment s' pid = .error .illegalPaymentState ∧
    runOp s' (Op.paymentRelease pid) = s' := by
  obtain ⟨p, o, hp, ho, hoc, hph, hs'⟩ := releasePayment_ok h
  subst hs'
  have hp' : findPayment
      ({ s with payments := updatePayment s.payments pid (setPaymentState .released) } :
        EngineState).payments pid = some (setPaymentState .released p) := by
    show findPayment (updatePayment s.payments pid (setPaymentState .released)) pid = _
    rw [findPayment_update_setState, if_pos rfl, hp]
    rfl
  have herr : releasePayment
      { s with payments := updatePayment s.payments pid (setPaymentState .released) } pid =
      .error .illegalPaymentState :=
    releasePayment_error hp' ho (by
      rintro ⟨_, hheld⟩
      simp [setPaymentState] at hheld)
  refine ⟨herr, ?_⟩
  unfold runOp
  simp only [applyOp]
  rw [herr]

theorem claim_C5_release_idempotent_witness :
    releasePayment (runOp (witState OrderStatus.completed PaymentState.held)
      (Op.paymentRelease 0)) 0 = .error .illegalPaymentState :=
  (claim_C5_release_idempotent (witState OrderStatus.completed PaymentState.held)
    (runOp (witState OrderStatus.completed PaymentState.held) (Op.paymentRelease 0)) 0
    (by rfl)).1

/-- Claim C6: reserving and then cancelling restores availability
exactly — at the ledger a successful reserve followed by release of its
token restores every product's availability, and an order cancellation
returns the inventory to its exact pre-reservation value — and release
of a reservation is idempotent. -/
theorem claim_C6_roundtrip :
    (∀ (L : InventoryLedger) (pid qty : Nat) (L' : InventoryLedger) (r : Reservation),
      L.reserve pid qty = .ok (L', r) →
      ∀ pid', getAvail (L'.release r).avail pid' = getAvail L.avail pid') ∧
    (∀ (inv : List (Nat × Nat)) (s : EngineState) (oid : Nat) (actor : Actor)
        (o : Order) (s' : EngineState),
      findOrder s.orders oid = some o →
      reserveItems inv o.items = some s.inventory →
      cancelOrder s oid actor = .ok s' →
      s'.inventory = inv) ∧
    (∀ (L : InventoryLedger) (r : Reservation), (L.release r).release r = L.release r) := by
  refine ⟨fun L pid qty L' r h => release_reserve_roundtrip h, ?_, release_idem⟩
  intro inv s oid actor o s' hfind hres hcancel
  obtain ⟨o2, hfind2, hpc, hs'⟩ := cancelOrder_ok hcancel
  rw [hfind] at hfind2
  cases hfind2
  subst hs'
  exact restoreItems_reserveItems o.items inv s.inventory hres

theorem claim_C6_roundtrip_witness :
    getAvail (InventoryLedger.release ⟨[(1, 5)], [0], 1⟩ ⟨0, 1, 3⟩).avail 1 =
      getAvail [(1, 8)] 1 :=
  (claim_C6_roundtrip).1 ⟨[(1, 8)], [], 0⟩ 1 3 ⟨[(1, 5)], [0], 1⟩ ⟨0, 1, 3⟩ (by rfl) 1

/-- Claim C7: with N units available and M greater than N serialized
one-unit reservation attempts (the spec's required serialization of
concurrent buyers), exactly N succeed, the other M minus N fail with
InsufficientStock, and afterwards the available quantity is 0. -/
theorem claim_C7_stock_race (L : InventoryLedger) (pid n m : Nat)
    (hA : getAvail L.avail pid = some n) (hM : n < m) :
    (runUnitReserves L pid m).2.1 = n ∧
    (runUnitReserves L pid m).2.2 = List.replicate (m - n) EngineErr.insufficientStock ∧
    getAvail (runUnitReserves L pid m).1.avail pid = some 0 := by
  obtain ⟨h1, h2, h3⟩ := runUnitReserves_spec pid m L n hA
  refine ⟨?_, h2, ?_⟩
  · rw [h1]
    exact Nat.min_eq_right (Nat.le_of_lt hM)
  · rw [h3]
    congr 1
    omega

theorem claim_C7_stock_race_witness :
    (runUnitReserves ⟨[(5, 2)], [], 0⟩ 5 4).2.1 = 2 ∧
    (runUnitReserves ⟨[(5, 2)], [], 0⟩ 5 4).2.2 =
      List.replicate 2 EngineErr.insufficientStock ∧
    getAvail (runUnitReserves ⟨[(5, 2)], [], 0⟩ 5 4).1.avail 5 = some 0 :=
  claim_C7_stock_race ⟨[(5, 2)], [], 0⟩ 5 2 4 (by rfl) (by decide)

/-- Claim C8: the core fails closed — a failed underlying fetch is
reported to the caller for the dashboard and delivery reads, every
successful read result comes verbatim from the fetched data (never from
fabricated fallback values), and a transition on an unknown order id is
reported as an error instead of fabricating state. -/
theorem claim_C8_fail_closed :
    (∀ e, fetchDashboardData (.error e) = .error e) ∧
    (∀ fetch r, fetchDashboardData fetch = .ok r →
      ∃ orders, fetch = .ok orders ∧ r = computeStats orders) ∧
    (∀ e, listDeliveries (.error e) = .error e) ∧
    (∀ fetch ds, listDeliveries fetch = .ok ds → fetch = .ok ds) ∧
    (∀ (s : EngineState) (op : Op) (oid : Nat), targetsOrder op oid →
      findOrder s.orders oid = none → applyOp s op = .error .invalidTransition) := by
  refine ⟨fun e => rfl, ?_, fun e => rfl, ?_, ?_⟩
  · intro fetch r h
    cases fetch with
    | ok orders =>
      refine ⟨orders, rfl, ?_⟩
      unfold fetchDashboardData at h
      cases h
      rfl
    | error e => exact absurd h (by simp [fetchDashboardData])
  · intro fetch ds h
    cases fetch with
    | ok ds0 =>
      unfold listDeliveries at h
      cases h
      rfl
    | error e => exact absurd h (by simp [listDeliveries])
  · intro s op oid ht hnone
    exact (targeted_invalid s op oid ht).1 hnone

theorem claim_C8_fail_closed_witness :
    applyOp (initState 3 100 [] []) (Op.confirm 42 ⟨7, Role.farmer⟩) =
      .error .invalidTransition :=
  (claim_C8_fail_closed).2.2.2.2 (initState 3 100 [] [])
    (Op.confirm 42 ⟨7, Role.farmer⟩) 42 rfl (by rfl)

/-- Claim C9: every tracking update carries a status from the fixed
taxonomy; completing a delivery succeeds only when the most recent
update is delivered and the record is not already completed; and
completed_at is set exactly once, only after at least one update with
the terminal delivery status. -/
theorem claim_C9_delivery_tracker :
    (∀ d, TrackerReachable d → ∀ u ∈ d.trackingUpdates,
      u.status = DeliveryStatus.pickedUp ∨ u.status = DeliveryStatus.inTransit ∨
      u.status = DeliveryStatus.delayed ∨ u.status = DeliveryStatus.delivered) ∧
    (∀ d t d', completeDelivery d t = .ok d' →
      d.completedAt = none ∧
      (∃ u, d.trackingUpdates.getLast? = some u ∧ u.status = DeliveryStatus.delivered) ∧
      d'.completedAt = some t) ∧
    (∀ (d : DeliveryRecord) (t0 t : Nat), d.completedAt = some t0 →
      completeDelivery d t = .error .invalidTransition) ∧
    (∀ d location status note,
      (addTrackingUpdate d location status note).completedAt = d.completedAt) ∧
    (∀ d, TrackerReachable d → ∀ t, d.completedAt = some t →
      ∃ u ∈ d.trackingUpdates, u.status = DeliveryStatus.delivered) := by
  refine ⟨?_, ?_, tracker_completed_once, fun d location status note => rfl,
          fun d hd => tracker_completed_has_delivered hd⟩
  · intro d _ u _
    cases hu : u.status <;> simp
  · intro d t d' h
    obtain ⟨h1, h2, h3⟩ := completeDelivery_ok h
    exact ⟨h1, h2, by rw [h3]⟩

theorem claim_C9_delivery_tracker_witness :
    completeDelivery { witDelivery with completedAt := some 4 } 9 =
      .error .invalidTransition :=
  (claim_C9_delivery_tracker).2.2.1 { witDelivery with completedAt := some 4 } 4 9 rfl

/-- Claim C10: on the product detail page, the quantity reached by any
sequence of decrement clicks, increment clicks and manual edits
(non-numeric input coercing to 1) is always at least 1, so every
add-to-cart request issued from the page carries quantity at least 1. -/
theorem claim_C10_quantity_floor (events : List QtyEvent) :
    1 ≤ quantityAfter events :=
  one_le_foldl_applyQtyEvent events 1 le_rfl

end AgriConnect
